import Mathlib

/-!
Shallow embedding of the splits records service (Rust sources under `src/`):
the validation engine (`src/validation.rs`, `src/models.rs`, `src/config.rs`),
the records store (`src/database.rs`, the SQL over the `splits` table), the
HTTP intake handler (`src/handlers.rs`) and the board command
(`src/commands.rs`).

Modelling conventions:
* Rust `i32` values are modelled as `Int`; Rust `/` and `%` on `i32` are
  `Int.tdiv` / `Int.tmod` (truncation toward zero).
* The SQLite table is a list of rows in insertion (rowid) order.  Creation
  timestamps are modelled by a monotonic `Nat` clock stamped on insert, so
  `ORDER BY created_at DESC/ASC` coincides with (reverse) insertion order;
  `WF` states this well-formedness and is preserved by every operation.
* SQL `expr = NULL` never holds; `sqlNullEq` embeds SQL equality on the
  nullable `is_encumbered` column.
* `SELECT ... ORDER BY key LIMIT 1` is embedded as a stable scan
  (first row in insertion order among the extremal ones).
-/

namespace Splits

/-- Rust `str::trim`: drop leading and trailing whitespace characters. -/
def rustTrim (s : String) : String :=
  String.mk (((s.data.dropWhile Char.isWhitespace).reverse.dropWhile Char.isWhitespace).reverse)

/-- Rust `str::len`: the length of the string in UTF-8 bytes. -/
def rustLen (s : String) : Nat :=
  (s.data.map Char.utf8Size).sum

/-- Rust `str::to_lowercase`, restricted to the ASCII case mapping. -/
def rustToLowercase (s : String) : String :=
  String.mk (s.data.map Char.toLower)

/-- Does the second list start with the first one? (helper for substring search). -/
def leadsWith : List Char → List Char → Bool
  | [], _ => true
  | _ :: _, [] => false
  | a :: as, b :: bs => a == b && leadsWith as bs

/-- Rust `str::contains` on the underlying character lists. -/
def containsSub (hay needle : List Char) : Bool :=
  match hay with
  | [] => needle.isEmpty
  | _ :: t => leadsWith needle hay || containsSub t needle

/-- Decimal representation of a `Nat`, zero-padded on the left to width `w`
(Rust `format!` with a `0w` width spec). -/
def natPad (w : Nat) (n : Nat) : String :=
  String.mk (List.replicate (w - (Nat.repr n).length) '0') ++ Nat.repr n

/-- Rust `Display` for `i32` (plain `\x7b\x7d` placeholder). -/
def intStr (n : Int) : String :=
  if n < 0 then "-" ++ Nat.repr n.natAbs else Nat.repr n.natAbs

/-- Rust sign-aware zero padding of an `i32` to total width `w`. -/
def intPad (w : Nat) (n : Int) : String :=
  if n < 0 then "-" ++ natPad (w - 1) n.natAbs else natPad w n.natAbs

/-- The `validation` section of the configuration (`src/config.rs`,
`ValidationConfig`). -/
structure ValidationConfig where
  max_username_length : Int
  username_whitelist : List String
  username_blacklist : List String
  max_duration_ms : Int
  min_duration_ms : Int
deriving DecidableEq

/-- The validation error taxonomy (`src/validation.rs`, `ValidationError`). -/
inductive ValidationError where
  | InvalidUsername (msg : String)
  | InvalidDuration (msg : String)
  | FieldValidation (field : String) (message : String)
deriving DecidableEq

/-- The `thiserror`-derived display message of a `ValidationError`. -/
def ValidationError.message : ValidationError → String
  | .InvalidUsername m => "Invalid username: " ++ m
  | .InvalidDuration m => "Invalid duration: " ++ m
  | .FieldValidation f m => "Field validation failed: " ++ f ++ " - " ++ m

/-- `UsernameValidator::validate` (`src/validation.rs`): empty check, then the
length bound (only when `max_username_length > 0`), then whitelist
(if non-empty) else blacklist. -/
def UsernameValidator.validate (username : String) (config : ValidationConfig) :
    Except ValidationError Unit :=
  if (rustTrim username).data.isEmpty then
    Except.error (ValidationError.InvalidUsername "Username cannot be empty")
  else if 0 < config.max_username_length ∧ config.max_username_length < (rustLen username : Int) then
    Except.error (ValidationError.InvalidUsername
      ("Username must be " ++ intStr config.max_username_length ++ " characters or less"))
  else if ¬ config.username_whitelist.isEmpty then
    if config.username_whitelist.any
        (fun allowed => rustToLowercase username == rustToLowercase allowed) then
      Except.ok ()
    else
      Except.error (ValidationError.InvalidUsername "Username not in whitelist")
  else if ¬ config.username_blacklist.isEmpty then
    if config.username_blacklist.any
        (fun prohibited => containsSub (rustToLowercase username).data (rustToLowercase prohibited).data) then
      Except.error (ValidationError.InvalidUsername "Username on blacklist")
    else
      Except.ok ()
  else
    Except.ok ()

/-- `DurationValidator::validate` (`src/validation.rs`). -/
def DurationValidator.validate (duration_ms : Int) (config : ValidationConfig) :
    Except ValidationError Unit :=
  if duration_ms ≤ 0 then
    Except.error (ValidationError.InvalidDuration "Duration must be positive")
  else if config.max_duration_ms < duration_ms then
    Except.error (ValidationError.InvalidDuration
      ("Duration cannot exceed " ++ intStr config.max_duration_ms ++ "ms"))
  else if duration_ms < config.min_duration_ms then
    Except.error (ValidationError.InvalidDuration
      ("Duration must be at least " ++ intStr config.min_duration_ms ++ "ms"))
  else
    Except.ok ()

/-- `DurationValidator::format_duration` (`src/validation.rs`). -/
def DurationValidator.format_duration (duration_ms : Int) : String :=
  let total_seconds := duration_ms.tdiv 1000
  let minutes := total_seconds.tdiv 60
  let seconds := total_seconds.tmod 60
  let milliseconds := duration_ms.tmod 1000
  if 0 < minutes then
    intStr minutes ++ "m" ++ intPad 2 seconds ++ "." ++ intPad 3 milliseconds ++ "s"
  else if 0 < seconds then
    intStr seconds ++ "." ++ intPad 3 milliseconds ++ "s"
  else
    intStr milliseconds ++ "ms"

/-- `FieldValidator::validate_boolean` (`src/validation.rs`). -/
def FieldValidator.validate_boolean (_value : Bool) (field_name : String) :
    Except ValidationError Unit :=
  if field_name == "is_down" ∨ field_name == "is_elevator" ∨ field_name == "is_encumbered" then
    Except.ok ()
  else
    Except.error (ValidationError.FieldValidation field_name "Unknown boolean field")

/-- An incoming submission (`src/models.rs`, `SplitData`). -/
structure SplitData where
  user : String
  is_down : Bool
  is_elevator : Bool
  duration_ms : Int
  is_encumbered : Option Bool
deriving DecidableEq

/-- `SplitData::validate` (`src/models.rs`): username, duration, boolean
fields, then the encumbrance/elevator consistency check. -/
def SplitData.validate (data : SplitData) (config : ValidationConfig) :
    Except ValidationError Unit := do
  UsernameValidator.validate data.user config
  DurationValidator.validate data.duration_ms config
  FieldValidator.validate_boolean data.is_down "is_down"
  FieldValidator.validate_boolean data.is_elevator "is_elevator"
  match data.is_encumbered with
  | some is_encumbered =>
    if data.is_elevator then
      Except.error (ValidationError.FieldValidation "is_encumbered"
        "is_encumbered parameter is only applicable to stairs, not elevators")
    else
      FieldValidator.validate_boolean is_encumbered "is_encumbered"
  | none => Except.ok ()

/-- The application error type (`src/error.rs`, `AppError`).  The enum in
`error.rs` lists the four wrapped variants; `insert_split` in
`src/database.rs` additionally returns `crate::AppError::DuplicateEntry`,
the variant of the final revision of the enum, so it is included here. -/
inductive AppError where
  | Database (msg : String)
  | Discord (msg : String)
  | EnvVar (msg : String)
  | Network (msg : String)
  | DuplicateEntry
deriving DecidableEq

/-- A persisted row of the `splits` table (`src/database.rs`; columns per
`initialize_database`).  `created_at` is modelled as a `Nat` tick of the
store's monotonic clock. -/
structure Split where
  id : Int
  user : String
  is_down : Bool
  is_elevator : Bool
  is_encumbered : Option Bool
  duration_ms : Int
  created_at : Nat
deriving DecidableEq

/-- The persistent store: the `splits` table in insertion (rowid) order,
plus the clock that stamps `created_at` (SQLite `CURRENT_TIMESTAMP`,
idealised to a strictly monotonic counter). -/
structure DB where
  rows : List Split
  clock : Nat
deriving DecidableEq

/-- Well-formedness of a store: rows are in strictly increasing
`created_at` order (insertion order = creation order) and the clock is
ahead of every stamped row.  It holds for the empty store and is preserved
by every operation. -/
def WF (db : DB) : Prop :=
  db.rows.Pairwise (fun a b => a.created_at < b.created_at) ∧
  ∀ s ∈ db.rows, s.created_at < db.clock

instance : DecidableEq (Except ValidationError Unit) := fun a b =>
  match a, b with
  | .ok x, .ok y =>
    if h : x = y then .isTrue (by rw [h]) else .isFalse (by intro hh; cases hh; exact h rfl)
  | .error x, .error y =>
    if h : x = y then .isTrue (by rw [h]) else .isFalse (by intro hh; cases hh; exact h rfl)
  | .ok _, .error _ => .isFalse (by intro hh; cases hh)
  | .error _, .ok _ => .isFalse (by intro hh; cases hh)

instance : DecidableEq (Except AppError Unit) := fun a b =>
  match a, b with
  | .ok x, .ok y =>
    if h : x = y then .isTrue (by rw [h]) else .isFalse (by intro hh; cases hh; exact h rfl)
  | .error x, .error y =>
    if h : x = y then .isTrue (by rw [h]) else .isFalse (by intro hh; cases hh; exact h rfl)
  | .ok _, .error _ => .isFalse (by intro hh; cases hh)
  | .error _, .ok _ => .isFalse (by intro hh; cases hh)

instance (db : DB) : Decidable (WF db) := by
  unfold WF
  infer_instance

/-- The last row (in stored order) satisfying `p`: embedding of
`SELECT ... WHERE p ORDER BY created_at DESC LIMIT 1` over rows stored in
creation order. -/
def lastMatching (p : Split → Bool) : List Split → Option Split
  | [] => none
  | a :: rest =>
    match lastMatching p rest with
    | some s => some s
    | none => if p a then some a else none

/-- `get_all_splits` (`src/database.rs`): all rows ordered by `created_at`
descending (most recent first). -/
def get_all_splits (db : DB) : List Split :=
  db.rows.reverse

/-- `get_most_recent_split` (`src/database.rs`). -/
def get_most_recent_split (db : DB) : Option Split :=
  lastMatching (fun _ => true) db.rows

/-- SQL equality on the nullable `is_encumbered` column: `NULL` compares
equal to nothing (three-valued logic collapses to false in a `WHERE`). -/
def sqlNullEq : Option Bool → Option Bool → Bool
  | some a, some b => a == b
  | _, _ => false

/-- `is_world_record` (`src/database.rs`): no row of the same category
(encumbrance compared only for stairs, with SQL `=` semantics) has a
strictly lower duration. -/
def is_world_record (db : DB) (split : Split) : Bool :=
  if split.is_elevator then
    db.rows.countP (fun r =>
      r.is_down == split.is_down && r.is_elevator == split.is_elevator &&
      decide (r.duration_ms < split.duration_ms)) == 0
  else
    db.rows.countP (fun r =>
      r.is_down == split.is_down && r.is_elevator == split.is_elevator &&
      sqlNullEq r.is_encumbered split.is_encumbered &&
      decide (r.duration_ms < split.duration_ms)) == 0

/-- `is_duplicate_entry` (`src/database.rs`): the duration of this user's
most recent row equals the submitted duration. -/
def is_duplicate_entry (db : DB) (data : SplitData) : Bool :=
  (lastMatching (fun r => r.user == data.user) db.rows).map (fun r => r.duration_ms)
    == some data.duration_ms

/-- The row a successful insert persists: fresh autoincrement id and a
`created_at` stamped from the store clock. -/
def mkSplit (db : DB) (data : SplitData) : Split :=
  { id := Int.ofNat db.rows.length + 1
    user := data.user
    is_down := data.is_down
    is_elevator := data.is_elevator
    is_encumbered := data.is_encumbered
    duration_ms := data.duration_ms
    created_at := db.clock }

/-- `insert_split` (`src/database.rs`): reject a duplicate of the user's
most recent entry, otherwise append the new row. -/
def insert_split (db : DB) (data : SplitData) : Except AppError Unit × DB :=
  if is_duplicate_entry db data then
    (Except.error AppError.DuplicateEntry, db)
  else
    (Except.ok (), { rows := db.rows ++ [mkSplit db data], clock := db.clock + 1 })

/-- The six categories in the fixed display order of `get_world_records`
(`src/database.rs`): is_down, is_elevator, is_encumbered. -/
def categories : List (Bool × Bool × Option Bool) :=
  [(true, true, none), (false, true, none),
   (true, false, some true), (true, false, some false),
   (false, false, some true), (false, false, some false)]

/-- The `WHERE` clause of the per-category queries in `get_world_records` /
`get_slowest_records`: for elevator categories encumbrance is ignored, for
stairs categories it is compared with SQL `=`. -/
def categoryFilter (c : Bool × Bool × Option Bool) (r : Split) : Bool :=
  if c.2.1 then
    r.is_down == c.1 && r.is_elevator == c.2.1
  else
    r.is_down == c.1 && r.is_elevator == c.2.1 && sqlNullEq r.is_encumbered c.2.2

/-- `SELECT ... ORDER BY duration_ms ASC LIMIT 1`: the first row in stored
order among those of minimal duration. -/
def minByDuration : List Split → Option Split
  | [] => none
  | a :: rest =>
    match minByDuration rest with
    | none => some a
    | some t => some (if t.duration_ms < a.duration_ms then t else a)

/-- `SELECT ... ORDER BY duration_ms DESC LIMIT 1`: the first row in stored
order among those of maximal duration. -/
def maxByDuration : List Split → Option Split
  | [] => none
  | a :: rest =>
    match maxByDuration rest with
    | none => some a
    | some t => some (if a.duration_ms < t.duration_ms then t else a)

/-- `get_world_records` (`src/database.rs`): per category, in the fixed
order, the minimum-duration row if any. -/
def get_world_records (db : DB) : List Split :=
  categories.filterMap (fun c => minByDuration (db.rows.filter (categoryFilter c)))

/-- `get_slowest_records` (`src/database.rs`): per category, in the fixed
order, the maximum-duration row if any. -/
def get_slowest_records (db : DB) : List Split :=
  categories.filterMap (fun c => maxByDuration (db.rows.filter (categoryFilter c)))

/-- `format_world_records` (`src/database.rs`): hardcoded empty-case text
and board header, then one line per given split. -/
def format_world_records (world_records : List Split) : String :=
  if world_records.isEmpty then
    "No world records found."
  else
    "**World Records Board:**\n" ++
    String.join (world_records.map (fun split =>
      let direction := if split.is_down then "Down" else "Up"
      let method := if split.is_elevator then "Elevator" else "Stairs"
      let formatted_duration := DurationValidator.format_duration split.duration_ms
      let category :=
        if split.is_elevator then
          direction ++ " " ++ method
        else
          let encumbered_text :=
            match split.is_encumbered with
            | some true => " (Encumbered)"
            | some false => " (No Items)"
            | none => ""
          direction ++ " " ++ method ++ encumbered_text
      "**" ++ category ++ "**: " ++ split.user ++ " - " ++ formatted_duration ++
        " (" ++ Nat.repr split.created_at ++ ")\n"))

/-- The `/slowboard` command (`src/commands.rs`, `slowest_board`): renders
the slowest records through `format_world_records`. -/
def slowest_board (db : DB) : String :=
  format_world_records (get_slowest_records db)

/-- The `/wrboard` command (`src/commands.rs`, `world_records_board`). -/
def world_records_board (db : DB) : String :=
  format_world_records (get_world_records db)

/-- HTTP status codes used by `new_split` (`src/handlers.rs`). -/
def statusBadRequest : Nat := 400

/-- HTTP 201 as returned on a successful insert. -/
def statusCreated : Nat := 201

/-- HTTP 500 as returned when `insert_split` fails. -/
def statusInternalServerError : Nat := 500

/-- The `new_split` handler (`src/handlers.rs`): validate, then insert;
validation failure yields 400 with the specific message, any insert error
yields 500 with a generic body, success yields 201. -/
def new_split (config : ValidationConfig) (db : DB) (data : SplitData) :
    (Nat × String) × DB :=
  match SplitData.validate data config with
  | Except.error e =>
    ((statusBadRequest, "Validation failed: " ++ e.message), db)
  | Except.ok _ =>
    match insert_split db data with
    | (Except.ok _, db2) => ((statusCreated, "Data inserted successfully!"), db2)
    | (Except.error _, db2) => ((statusInternalServerError, "Error inserting data"), db2)

/-- The core store operations (`src/database.rs`), as one step alphabet for
stating frame properties. -/
inductive StoreOp where
  | insertOp (data : SplitData)
  | allOp
  | recentOp
  | recordCheckOp (s : Split)
  | bestOp
  | worstOp
deriving DecidableEq

/-- Outputs of the core store operations. -/
inductive StoreOut where
  | unitOut (r : Except AppError Unit)
  | splitsOut (l : List Split)
  | recentOut (r : Option Split)
  | boolOut (b : Bool)

/-- One core store operation as a state transformer.  The read operations
are single SQL `SELECT`s and do not write the table. -/
def runOp (db : DB) : StoreOp → StoreOut × DB
  | .insertOp data =>
    let p := insert_split db data
    (.unitOut p.1, p.2)
  | .allOp => (.splitsOut (get_all_splits db), db)
  | .recentOp => (.recentOut (get_most_recent_split db), db)
  | .recordCheckOp s => (.boolOut (is_world_record db s), db)
  | .bestOp => (.splitsOut (get_world_records db), db)
  | .worstOp => (.splitsOut (get_slowest_records db), db)

/-- Modelled from the spec, section 3: two splits are in the same category
iff direction and transport match and, for stairs, the (tri-state)
encumbrance matches.  Stated here to compare the specification's category
matching with the store's SQL matching. -/
def sameCategorySpec (a b : Split) : Bool :=
  a.is_down == b.is_down && a.is_elevator == b.is_elevator &&
  (a.is_elevator || a.is_encumbered == b.is_encumbered)

/-- The category tuple a split is grouped under by the store's queries:
encumbrance is kept only for stairs. -/
def catKey (s : Split) : Bool × Bool × Option Bool :=
  (s.is_down, s.is_elevator, if s.is_elevator then none else s.is_encumbered)

/-- The default validation policy (`src/config.rs`, `Default for
ValidationConfig`). -/
def defaultValidationConfig : ValidationConfig :=
  { max_username_length := -1
    username_whitelist := []
    username_blacklist := []
    max_duration_ms := 86400000
    min_duration_ms := 100 }

section Lemmas

lemma intStr_natCast (k : Nat) : intStr (k : Int) = Nat.repr k := by
  simp [intStr, show ¬((k : Int) < 0) by omega]

lemma intPad_natCast (w : Nat) (k : Nat) : intPad w (k : Int) = natPad w k := by
  simp [intPad, natPad, show ¬((k : Int) < 0) by omega]

end Lemmas

/-- C8: `format_duration` renders minutes as `m`, two-digit seconds and
three-digit milliseconds when minutes are positive; unpadded total seconds
with three-digit milliseconds when only seconds are positive; bare
milliseconds otherwise — and on the three sample inputs it yields
`1m05.432s`, `5.000s` and `42ms`. -/
theorem format_duration_spec :
    (∀ n : Nat, DurationValidator.format_duration (n : Int) =
      (if 0 < n / 60000 then
        Nat.repr (n / 60000) ++ "m" ++ natPad 2 (n / 1000 % 60) ++ "." ++
          natPad 3 (n % 1000) ++ "s"
      else if 0 < n / 1000 then
        Nat.repr (n / 1000) ++ "." ++ natPad 3 (n % 1000) ++ "s"
      else
        Nat.repr (n % 1000) ++ "ms"))
    ∧ DurationValidator.format_duration 65432 = "1m05.432s"
    ∧ DurationValidator.format_duration 5000 = "5.000s"
    ∧ DurationValidator.format_duration 42 = "42ms" := by
  refine ⟨?_, by decide, by decide, by decide⟩
  intro n
  have hm : ((n : Int)).tdiv 1000 = ((n / 1000 : Nat) : Int) := rfl
  have hmin : (((n / 1000 : Nat) : Int)).tdiv 60 = ((n / 1000 / 60 : Nat) : Int) := rfl
  have hs : (((n / 1000 : Nat) : Int)).tmod 60 = ((n / 1000 % 60 : Nat) : Int) := rfl
  have hms : ((n : Int)).tmod 1000 = ((n % 1000 : Nat) : Int) := rfl
  have hdd : n / 1000 / 60 = n / 60000 := by omega
  unfold DurationValidator.format_duration
  simp only [hm, hmin, hs, hms, hdd, intStr_natCast, intPad_natCast]
  by_cases h1 : 0 < n / 60000
  · rw [if_pos (by exact_mod_cast h1), if_pos h1]
  · have h60 : n / 60000 = 0 := by omega
    have hsec : n / 1000 % 60 = n / 1000 := by omega
    rw [if_neg (by exact_mod_cast h1), if_neg h1, hsec]
    by_cases h2 : 0 < n / 1000
    · rw [if_pos (by exact_mod_cast h2), if_pos h2]
    · rw [if_neg (by exact_mod_cast h2), if_neg h2]

/-- C6 (amended): the username length bound is enforced only when
`max_username_length` is strictly positive: a trimmed-non-empty username
whose UTF-8 byte length exceeds a positive bound is rejected with the
length message. -/
theorem username_length_check (username : String) (cfg : ValidationConfig)
    (hne : (rustTrim username).data.isEmpty = false)
    (hpos : 0 < cfg.max_username_length)
    (hlen : cfg.max_username_length < (rustLen username : Int)) :
    UsernameValidator.validate username cfg =
      Except.error (ValidationError.InvalidUsername
        ("Username must be " ++ intStr cfg.max_username_length ++ " characters or less")) := by
  unfold UsernameValidator.validate
  rw [if_neg (by simp [hne]), if_pos ⟨hpos, hlen⟩]

/-- C6 witness: a 30-byte username against a bound of 8. -/
theorem username_length_check_witness :
    UsernameValidator.validate "abcdefghijklmnopqrstuvwxyzabcd"
        { defaultValidationConfig with max_username_length := 8 } =
      Except.error (ValidationError.InvalidUsername
        "Username must be 8 characters or less") :=
  username_length_check _ _ (by decide) (by decide) (by decide)

/-- C6 counterexample: with the configured bound exactly 0 the length check
is skipped (`max_username_length > 0` in the source), so a non-empty
username longer than the bound still validates, where the claim demands
`InvalidUser`. -/
theorem username_length_zero_not_enforced :
    (0 : Int) ≤ ({ defaultValidationConfig with max_username_length := 0 } :
        ValidationConfig).max_username_length ∧
    (rustTrim "a").data.isEmpty = false ∧
    ({ defaultValidationConfig with max_username_length := 0 } :
        ValidationConfig).max_username_length < (rustLen "a" : Int) ∧
    UsernameValidator.validate "a" { defaultValidationConfig with max_username_length := 0 } =
      Except.ok () := by
  refine ⟨by decide, by decide, by decide, by decide⟩

/-- C7: a submission with `is_elevator = true` and `is_encumbered` set is
rejected with the `FieldValidation` error (given the username and duration
checks pass), never silently normalized. -/
theorem validate_rejects_encumbered_elevator (data : SplitData) (cfg : ValidationConfig)
    (b : Bool)
    (hu : UsernameValidator.validate data.user cfg = Except.ok ())
    (hd : DurationValidator.validate data.duration_ms cfg = Except.ok ())
    (he : data.is_elevator = true)
    (hb : data.is_encumbered = some b) :
    SplitData.validate data cfg =
      Except.error (ValidationError.FieldValidation "is_encumbered"
        "is_encumbered parameter is only applicable to stairs, not elevators") := by
  unfold SplitData.validate
  rw [hu, hd, hb, he]
  rfl

/-- C7 witness: an encumbered elevator submission is rejected. -/
theorem validate_rejects_encumbered_elevator_witness :
    SplitData.validate
        { user := "A", is_down := true, is_elevator := true,
          duration_ms := 1000, is_encumbered := some true }
        defaultValidationConfig =
      Except.error (ValidationError.FieldValidation "is_encumbered"
        "is_encumbered parameter is only applicable to stairs, not elevators") :=
  validate_rejects_encumbered_elevator _ _ true (by decide) (by decide) rfl rfl

/-- A store holding one split of user `A` with duration 1000. -/
def dupDB : DB :=
  { rows := [{ id := 1, user := "A", is_down := true, is_elevator := false,
               is_encumbered := some false, duration_ms := 1000, created_at := 0 }]
    clock := 1 }

/-- The same user resubmitting duration 1000: a duplicate of the most
recent entry. -/
def dupData : SplitData :=
  { user := "A", is_down := true, is_elevator := false,
    duration_ms := 1000, is_encumbered := some false }

/-- C5 counterexample: a valid submission that is a duplicate of the user's
most recent entry makes `insert_split` fail with `DuplicateEntry`, but the
`new_split` endpoint answers with the server-side status 500 and the
generic body, not a client-error status carrying the duplicate reason. -/
theorem new_split_duplicate_is_server_error :
    SplitData.validate dupData defaultValidationConfig = Except.ok () ∧
    (insert_split dupDB dupData).1 = Except.error AppError.DuplicateEntry ∧
    (new_split defaultValidationConfig dupDB dupData).1 = (500, "Error inserting data") ∧
    ¬(400 ≤ (new_split defaultValidationConfig dupDB dupData).1.1 ∧
      (new_split defaultValidationConfig dupDB dupData).1.1 < 500) := by
  refine ⟨by decide, by decide, by decide, by decide⟩

/-- C5 (amended): `new_split` maps a validation failure to the client-error
status 400 with the specific message, but maps every `insert_split` error —
`DuplicateEntry` included — to the server-error status 500 with the generic
body `Error inserting data`, indistinguishable from a storage failure; a
successful insert yields 201. -/
theorem new_split_response_mapping (cfg : ValidationConfig) (db : DB) (data : SplitData) :
    (∀ e, SplitData.validate data cfg = Except.error e →
      new_split cfg db data = ((statusBadRequest, "Validation failed: " ++ e.message), db))
    ∧ (∀ e, SplitData.validate data cfg = Except.ok () →
        (insert_split db data).1 = Except.error e →
        (new_split cfg db data).1 = (statusInternalServerError, "Error inserting data"))
    ∧ (SplitData.validate data cfg = Except.ok () →
        (insert_split db data).1 = Except.ok () →
        (new_split cfg db data).1 = (statusCreated, "Data inserted successfully!")) := by
  refine ⟨?_, ?_, ?_⟩
  · intro e hV
    unfold new_split
    rw [hV]
  · intro e hV hI
    unfold new_split
    rw [hV]
    cases hrun : insert_split db data with
    | mk r db2 =>
      rw [hrun] at hI
      simp only at hI
      rw [hI]
  · intro hV hI
    unfold new_split
    rw [hV]
    cases hrun : insert_split db data with
    | mk r db2 =>
      rw [hrun] at hI
      simp only at hI
      rw [hI]

/-- C5 witness: the mapping applied to the concrete duplicate submission. -/
theorem new_split_response_mapping_witness :
    (new_split defaultValidationConfig dupDB dupData).1 =
      (statusInternalServerError, "Error inserting data") :=
  (new_split_response_mapping defaultValidationConfig dupDB dupData).2.1
    AppError.DuplicateEntry (by decide) (by decide)

/-- The category label of a records-board line, as the board renders it:
direction, transport, and for stairs the encumbrance tag. -/
def categoryLabel (s : Split) : String :=
  (if s.is_down then "Down" else "Up") ++ " " ++
  (if s.is_elevator then "Elevator"
   else "Stairs" ++
     (match s.is_encumbered with
      | some true => " (Encumbered)"
      | some false => " (No Items)"
      | none => ""))

/-- One line of the records board:
`**label**: user - duration (timestamp)` with a trailing newline. -/
def recordLine (s : Split) : String :=
  "**" ++ categoryLabel s ++ "**: " ++ s.user ++ " - " ++
  DurationValidator.format_duration s.duration_ms ++ " (" ++
  Nat.repr s.created_at ++ ")\n"

/-- C9 counterexample: the board formatter has no title parameter — on an
empty store the slowest-records command renders the hardcoded world-records
text `No world records found.`, not `No Slowest Records found.`. -/
theorem slowest_board_title_hardcoded :
    slowest_board { rows := [], clock := 0 } = "No world records found." ∧
    slowest_board { rows := [], clock := 0 } ≠ "No Slowest Records found." := by
  refine ⟨rfl, by decide⟩

/-- C9 (amended): `format_world_records` returns the hardcoded
`No world records found.` on an empty input (whatever board is being
rendered), and otherwise the hardcoded `**World Records Board:**` header
followed by one `**label**: user - duration (timestamp)` line per split in
input order; both board commands render through it. -/
theorem format_world_records_rendering :
    (∀ splits : List Split, splits ≠ [] →
      format_world_records splits =
        "**World Records Board:**\n" ++ String.join (splits.map recordLine))
    ∧ format_world_records [] = "No world records found."
    ∧ (∀ db, slowest_board db = format_world_records (get_slowest_records db))
    ∧ (∀ db, world_records_board db = format_world_records (get_world_records db)) := by
  refine ⟨?_, rfl, fun db => rfl, fun db => rfl⟩
  intro splits hne
  unfold format_world_records
  rw [if_neg (by simp [hne])]
  have hline : ∀ s : Split,
      (let direction := if s.is_down then "Down" else "Up"
       let method := if s.is_elevator then "Elevator" else "Stairs"
       let formatted_duration := DurationValidator.format_duration s.duration_ms
       let category :=
         if s.is_elevator then
           direction ++ " " ++ method
         else
           let encumbered_text :=
             match s.is_encumbered with
             | some true => " (Encumbered)"
             | some false => " (No Items)"
             | none => ""
           direction ++ " " ++ method ++ encumbered_text
       "**" ++ category ++ "**: " ++ s.user ++ " - " ++ formatted_duration ++
         " (" ++ Nat.repr s.created_at ++ ")\n") = recordLine s := by
    intro s
    unfold recordLine categoryLabel
    cases he : s.is_elevator
    · cases henc : s.is_encumbered with
      | none => simp [he, henc, String.append_assoc]
      | some b => cases b <;> simp [he, henc, String.append_assoc]
    · simp [he, String.append_assoc]
  rw [funext hline]

/-- C9 amended-claim witness: a one-row board renders as header plus its
single line. -/
theorem format_world_records_rendering_witness :
    format_world_records
        [{ id := 1, user := "A", is_down := true, is_elevator := false,
           is_encumbered := some true, duration_ms := 100, created_at := 0 }] =
      "**World Records Board:**\n**Down Stairs (Encumbered)**: A - 100ms (0)\n" := by
  rw [format_world_records_rendering.1 _ (by simp)]
  decide

section StoreLemmas

lemma lastMatching_cons_some {p : Split → Bool} {a : Split} {rest : List Split} {s : Split}
    (h : lastMatching p rest = some s) :
    lastMatching p (a :: rest) = some s := by
  simp only [lastMatching, h]

lemma lastMatching_cons_none {p : Split → Bool} {a : Split} {rest : List Split}
    (h : lastMatching p rest = none) :
    lastMatching p (a :: rest) = if p a then some a else none := by
  simp only [lastMatching, h]

lemma lastMatching_eq_none {p : Split → Bool} :
    ∀ {l : List Split}, lastMatching p l = none ↔ ∀ t ∈ l, p t = false := by
  intro l
  induction l with
  | nil => simp [lastMatching]
  | cons a rest ih =>
    cases hrest : lastMatching p rest with
    | some s =>
      rw [lastMatching_cons_some hrest]
      constructor
      · intro h; cases h
      · intro hall
        have hn : lastMatching p rest = none :=
          ih.mpr (fun t ht => hall t (List.mem_cons_of_mem a ht))
        rw [hn] at hrest
        cases hrest
    | none =>
      rw [lastMatching_cons_none hrest]
      by_cases hpa : p a = true
      · rw [if_pos hpa]
        constructor
        · intro h; cases h
        · intro hall
          rw [hall a (List.mem_cons_self a rest)] at hpa
          cases hpa
      · rw [if_neg hpa]
        simp only [true_iff]
        intro t ht
        rcases List.mem_cons.mp ht with rfl | ht2
        · exact Bool.not_eq_true _ ▸ (Bool.eq_false_iff.mpr hpa)
        · exact (ih.mp hrest) t ht2

lemma lastMatching_latest {p : Split → Bool} :
    ∀ {l : List Split},
      l.Pairwise (fun a b => a.created_at < b.created_at) →
      ∀ {s : Split}, lastMatching p l = some s →
        s ∈ l ∧ p s = true ∧ ∀ t ∈ l, p t = true → t.created_at ≤ s.created_at := by
  intro l
  induction l with
  | nil => intro _ s h; cases h
  | cons a rest ih =>
    intro hpw s h
    rw [List.pairwise_cons] at hpw
    obtain ⟨ha, hrest⟩ := hpw
    cases hrest2 : lastMatching p rest with
    | some s2 =>
      rw [lastMatching_cons_some hrest2] at h
      obtain rfl : s2 = s := Option.some.inj h
      obtain ⟨hmem, hps, hmax⟩ := ih hrest hrest2
      refine ⟨List.mem_cons_of_mem a hmem, hps, ?_⟩
      intro t ht hpt
      rcases List.mem_cons.mp ht with rfl | ht2
      · exact le_of_lt (ha _ hmem)
      · exact hmax t ht2 hpt
    | none =>
      rw [lastMatching_cons_none hrest2] at h
      by_cases hpa : p a = true
      · rw [if_pos hpa] at h
        obtain rfl : a = s := Option.some.inj h
        refine ⟨List.mem_cons_self _ _, hpa, ?_⟩
        intro t ht hpt
        rcases List.mem_cons.mp ht with rfl | ht2
        · exact le_refl _
        · rw [lastMatching_eq_none.mp hrest2 t ht2] at hpt
          cases hpt
      · rw [if_neg hpa] at h
        cases h

lemma lastMatching_isSome (p : Split → Bool) {l : List Split} {t : Split}
    (ht : t ∈ l) (hpt : p t = true) :
    ∃ s, lastMatching p l = some s := by
  cases h : lastMatching p l with
  | some s => exact ⟨s, rfl⟩
  | none =>
    rw [lastMatching_eq_none.mp h t ht] at hpt
    cases hpt

lemma pairwise_created_at_inj {l : List Split}
    (h : l.Pairwise (fun a b => a.created_at < b.created_at))
    {a b : Split} (ha : a ∈ l) (hb : b ∈ l)
    (hab : a.created_at = b.created_at) : a = b := by
  induction l with
  | nil => cases ha
  | cons x rest ih =>
    rw [List.pairwise_cons] at h
    obtain ⟨hx, hrest⟩ := h
    rcases List.mem_cons.mp ha with rfl | ha2
    · rcases List.mem_cons.mp hb with rfl | hb2
      · rfl
      · exact absurd hab (by have := hx b hb2; omega)
    · rcases List.mem_cons.mp hb with rfl | hb2
      · exact absurd hab (by have := hx a ha2; omega)
      · exact ih hrest ha2 hb2

lemma is_duplicate_entry_iff (db : DB) (data : SplitData) (hwf : WF db) :
    is_duplicate_entry db data = true ↔
      ∃ s ∈ db.rows, s.user = data.user ∧ s.duration_ms = data.duration_ms ∧
        ∀ t ∈ db.rows, t.user = data.user → t.created_at ≤ s.created_at := by
  unfold is_duplicate_entry
  constructor
  · intro h
    cases hlm : lastMatching (fun r => r.user == data.user) db.rows with
    | none => rw [hlm] at h; cases h
    | some s =>
      rw [hlm] at h
      have hdur : s.duration_ms = data.duration_ms :=
        Option.some.inj (by exact eq_of_beq h)
      obtain ⟨hmem, hps, hmax⟩ := lastMatching_latest hwf.1 hlm
      refine ⟨s, hmem, beq_iff_eq.mp (show (s.user == data.user) = true from hps), hdur, ?_⟩
      intro t ht hu
      exact hmax t ht (show (t.user == data.user) = true from beq_iff_eq.mpr hu)
  · rintro ⟨s, hmem, hu, hd, hmax⟩
    obtain ⟨s2, hlm⟩ := lastMatching_isSome (fun r => r.user == data.user) hmem
      (show (s.user == data.user) = true from beq_iff_eq.mpr hu)
    obtain ⟨hmem2, hps2, hmax2⟩ := lastMatching_latest hwf.1 hlm
    have hs2u : s2.user = data.user :=
      beq_iff_eq.mp (show (s2.user == data.user) = true from hps2)
    have heq : s2 = s :=
      pairwise_created_at_inj hwf.1 hmem2 hmem
        (Nat.le_antisymm (hmax s2 hmem2 hs2u)
          (hmax2 s hmem (show (s.user == data.user) = true from beq_iff_eq.mpr hu)))
    subst heq
    rw [hlm]
    show (some s2.duration_ms == some data.duration_ms) = true
    rw [hd, beq_self_eq_true]

end StoreLemmas

/-- C1: `insert_split` fails with `DuplicateEntry` exactly when the
submitting user's most-recently-created persisted split has the same
duration (category never compared); a user with no prior split never fails
as a duplicate, a different duration from the same user succeeds, and a
rejected append leaves the store untouched. -/
theorem insert_split_duplicate_iff (db : DB) (data : SplitData) (hwf : WF db) :
    ((insert_split db data).1 = Except.error AppError.DuplicateEntry ↔
      ∃ s ∈ db.rows, s.user = data.user ∧ s.duration_ms = data.duration_ms ∧
        ∀ t ∈ db.rows, t.user = data.user → t.created_at ≤ s.created_at)
    ∧ ((∀ t ∈ db.rows, t.user ≠ data.user) → (insert_split db data).1 = Except.ok ())
    ∧ (∀ s ∈ db.rows, s.user = data.user →
        (∀ t ∈ db.rows, t.user = data.user → t.created_at ≤ s.created_at) →
        s.duration_ms ≠ data.duration_ms → (insert_split db data).1 = Except.ok ())
    ∧ ((insert_split db data).1 = Except.error AppError.DuplicateEntry →
        (insert_split db data).2 = db) := by
  have hkey := is_duplicate_entry_iff db data hwf
  refine ⟨?_, ?_, ?_, ?_⟩
  · unfold insert_split
    by_cases hdup : is_duplicate_entry db data = true
    · rw [if_pos hdup]
      simpa using hkey.mp hdup
    · rw [if_neg hdup]
      simp only [reduceCtorEq, false_iff]
      intro hc
      exact hdup (hkey.mpr hc)
  · intro hnone
    unfold insert_split
    rw [if_neg ?hnd]
    case hnd =>
      intro hdup
      obtain ⟨s, hmem, hu, _, _⟩ := hkey.mp hdup
      exact hnone s hmem hu
  · intro s hmem hu hmax hne
    unfold insert_split
    rw [if_neg ?hnd2]
    case hnd2 =>
      intro hdup
      obtain ⟨s2, hmem2, hu2, hd2, hmax2⟩ := hkey.mp hdup
      have heq : s2 = s :=
        pairwise_created_at_inj hwf.1 hmem2 hmem
          (Nat.le_antisymm (hmax s2 hmem2 hu2) (hmax2 s hmem hu))
      subst heq
      exact hne hd2
  · intro herr
    unfold insert_split at herr ⊢
    by_cases hdup : is_duplicate_entry db data = true
    · rw [if_pos hdup]
    · rw [if_neg hdup] at herr
      simp at herr

/-- C1 witness: on the one-row store of user `A`, `A` resubmitting the same
duration is rejected, resubmitting another duration succeeds, and user `B`
always succeeds. -/
theorem insert_split_duplicate_iff_witness :
    (insert_split dupDB dupData).1 = Except.error AppError.DuplicateEntry ∧
    (insert_split dupDB { dupData with duration_ms := 2000 }).1 = Except.ok () ∧
    (insert_split dupDB { dupData with user := "B" }).1 = Except.ok () := by
  refine ⟨?_, ?_, ?_⟩
  · exact (insert_split_duplicate_iff dupDB dupData (by decide)).1.mpr
      ⟨{ id := 1, user := "A", is_down := true, is_elevator := false,
         is_encumbered := some false, duration_ms := 1000, created_at := 0 },
       by decide, rfl, rfl, by decide⟩
  · exact (insert_split_duplicate_iff dupDB _ (by decide)).2.2.1
      { id := 1, user := "A", is_down := true, is_elevator := false,
        is_encumbered := some false, duration_ms := 1000, created_at := 0 }
      (by decide) rfl (by decide) (by decide)
  · exact (insert_split_duplicate_iff dupDB _ (by decide)).2.1 (by decide)

section RecordLemmas

lemma is_world_record_char (db : DB) (split : Split) :
    is_world_record db split = true ↔
      ∀ t ∈ db.rows, categoryFilter (catKey split) t = true →
        ¬(t.duration_ms < split.duration_ms) := by
  unfold is_world_record
  by_cases hel : split.is_elevator = true
  · have hfilt : ∀ t : Split, categoryFilter (catKey split) t =
        (t.is_down == split.is_down && t.is_elevator == split.is_elevator) := by
      intro t
      simp [categoryFilter, catKey, hel]
    rw [if_pos hel, beq_iff_eq, List.countP_eq_zero]
    constructor
    · intro h t ht hcat hlt
      refine h t ht ?_
      rw [hfilt] at hcat
      simp only [Bool.and_eq_true] at hcat
      simp only [Bool.and_eq_true, decide_eq_true_eq]
      exact ⟨hcat, hlt⟩
    · intro h t ht hp
      simp only [Bool.and_eq_true, decide_eq_true_eq] at hp
      obtain ⟨⟨hd2, he2⟩, hlt⟩ := hp
      refine h t ht ?_ hlt
      rw [hfilt]
      simp [hd2, he2]
  · have hfilt : ∀ t : Split, categoryFilter (catKey split) t =
        (t.is_down == split.is_down && t.is_elevator == split.is_elevator &&
          sqlNullEq t.is_encumbered split.is_encumbered) := by
      intro t
      simp [categoryFilter, catKey, hel]
    rw [if_neg hel, beq_iff_eq, List.countP_eq_zero]
    constructor
    · intro h t ht hcat hlt
      refine h t ht ?_
      rw [hfilt] at hcat
      simp only [Bool.and_eq_true] at hcat
      simp only [Bool.and_eq_true, decide_eq_true_eq]
      exact ⟨⟨hcat.1, hcat.2⟩, hlt⟩
    · intro h t ht hp
      simp only [Bool.and_eq_true, decide_eq_true_eq] at hp
      obtain ⟨⟨⟨hd2, he2⟩, henc⟩, hlt⟩ := hp
      refine h t ht ?_ hlt
      rw [hfilt]
      simp [hd2, he2, henc]

end RecordLemmas

/-- C2 (amended): `is_world_record` is true for a persisted split iff no
other persisted split of the same category — with category matching done by
SQL equality, so a stairs entry only matches entries whose encumbrance is
set to the same value, and an unset-encumbrance stairs split matches no
entry at all — has a strictly lower duration; a duration tie never
disqualifies. -/
theorem is_world_record_iff_no_better (db : DB) (split : Split)
    (hmem : split ∈ db.rows) :
    is_world_record db split = true ↔
      ∀ t ∈ db.rows, t ≠ split → categoryFilter (catKey split) t = true →
        ¬(t.duration_ms < split.duration_ms) := by
  rw [is_world_record_char db split]
  constructor
  · intro h t ht _ hcat
    exact h t ht hcat
  · intro h t ht hcat hlt
    by_cases hts : t = split
    · subst hts
      exact absurd hlt (lt_irrefl _)
    · exact h t ht hts hcat hlt

/-- C2 amended-claim witness: on the two-row store of `dupDB` extended, the
sole down-stairs split is a record. -/
theorem is_world_record_iff_no_better_witness :
    is_world_record dupDB
      { id := 1, user := "A", is_down := true, is_elevator := false,
        is_encumbered := some false, duration_ms := 1000, created_at := 0 } = true :=
  (is_world_record_iff_no_better dupDB _ (by decide)).mpr (by decide)

/-- A down-stairs split with unset encumbrance and duration 100. -/
def stairsNoneFast : Split :=
  { id := 1, user := "A", is_down := true, is_elevator := false,
    is_encumbered := none, duration_ms := 100, created_at := 0 }

/-- A down-stairs split with unset encumbrance and duration 200, persisted
after `stairsNoneFast`. -/
def stairsNoneSlow : Split :=
  { id := 2, user := "B", is_down := true, is_elevator := false,
    is_encumbered := none, duration_ms := 200, created_at := 1 }

/-- The store holding both unset-encumbrance stairs splits. -/
def dbNoneEnc : DB := { rows := [stairsNoneFast, stairsNoneSlow], clock := 2 }

/-- C2 counterexample: two persisted stairs splits both with unset
encumbrance are in the same category in the specification's sense (same
direction, transport and encumbrance value), one strictly faster — yet
`is_world_record` still reports the slower one as a record, because the SQL
comparison `is_encumbered = NULL` matches no row.  The claim's iff demands
false here. -/
theorem is_world_record_unset_encumbrance_breaks_claim :
    WF dbNoneEnc ∧ stairsNoneFast ∈ dbNoneEnc.rows ∧ stairsNoneSlow ∈ dbNoneEnc.rows ∧
    stairsNoneFast ≠ stairsNoneSlow ∧
    sameCategorySpec stairsNoneFast stairsNoneSlow = true ∧
    stairsNoneFast.duration_ms < stairsNoneSlow.duration_ms ∧
    is_world_record dbNoneEnc stairsNoneSlow = true := by
  refine ⟨by decide, by decide, by decide, by decide, by decide, by decide, by decide⟩

/-- A down-stairs unencumbered split, duration 100, created first. -/
def tieFirst : Split :=
  { id := 1, user := "A", is_down := true, is_elevator := false,
    is_encumbered := some false, duration_ms := 100, created_at := 0 }

/-- A second split of the same category and the same duration, created
later. -/
def tieSecond : Split :=
  { id := 2, user := "B", is_down := true, is_elevator := false,
    is_encumbered := some false, duration_ms := 100, created_at := 1 }

/-- The store holding the two tied splits. -/
def dbTie : DB := { rows := [tieFirst, tieSecond], clock := 2 }

/-- C4 counterexample: two persisted same-category splits share the minimal
duration; the claim says only the earlier-created one is reported as a
record, but `is_world_record` compares with a strict inequality and reports
both. -/
theorem is_world_record_tie_no_creation_tiebreak :
    WF dbTie ∧ tieFirst ∈ dbTie.rows ∧ tieSecond ∈ dbTie.rows ∧
    sameCategorySpec tieFirst tieSecond = true ∧
    tieFirst.duration_ms = tieSecond.duration_ms ∧
    tieFirst.created_at < tieSecond.created_at ∧
    is_world_record dbTie tieFirst = true ∧
    is_world_record dbTie tieSecond = true := by
  refine ⟨by decide, by decide, by decide, by decide, by decide, by decide, by decide,
    by decide⟩

/-- C4 (amended): among persisted splits of one category (encumbrance set
and equal when transport is stairs, SQL matching), `is_world_record` is
true exactly for the splits of minimal duration: a strictly faster
same-category entry forces false, and minimality forces true — every split
tied at the minimum is reported, with no creation-time tie-break. -/
theorem is_world_record_min_duration (db : DB) (s1 s2 : Split)
    (h1 : s1 ∈ db.rows) (_h2 : s2 ∈ db.rows)
    (hcat : categoryFilter (catKey s2) s1 = true) :
    (s1.duration_ms < s2.duration_ms → is_world_record db s2 = false)
    ∧ ((∀ t ∈ db.rows, categoryFilter (catKey s2) t = true →
        s2.duration_ms ≤ t.duration_ms) → is_world_record db s2 = true) := by
  constructor
  · intro hlt
    cases hwr : is_world_record db s2 with
    | false => rfl
    | true =>
      have := (is_world_record_char db s2).mp hwr s1 h1 hcat
      exact absurd hlt this
  · intro hmin
    refine (is_world_record_char db s2).mpr ?_
    intro t ht hcatt hlt
    exact absurd hlt (not_lt.mpr (hmin t ht hcatt))

/-- C4 amended-claim witness: in the tied store, the second tied split is
still a record (it is minimal), applied through the amended theorem. -/
theorem is_world_record_min_duration_witness :
    is_world_record dbTie tieSecond = true :=
  (is_world_record_min_duration dbTie tieFirst tieSecond (by decide) (by decide)
    (by decide)).2 (by decide)

section BoardLemmas

lemma sqlNullEq_some {x : Option Bool} {b : Bool} (h : sqlNullEq x (some b) = true) :
    x = some b := by
  cases x with
  | none => cases h
  | some y =>
    simp only [sqlNullEq, beq_iff_eq] at h
    rw [h]

lemma minByDuration_cons_none {a : Split} {rest : List Split}
    (h : minByDuration rest = none) : minByDuration (a :: rest) = some a := by
  simp only [minByDuration, h]

lemma minByDuration_cons_some {a : Split} {rest : List Split} {t : Split}
    (h : minByDuration rest = some t) :
    minByDuration (a :: rest) = some (if t.duration_ms < a.duration_ms then t else a) := by
  simp only [minByDuration, h]

lemma minByDuration_eq_none : ∀ {l : List Split}, minByDuration l = none ↔ l = [] := by
  intro l
  cases l with
  | nil => simp [minByDuration]
  | cons a rest =>
    cases hrest : minByDuration rest with
    | none => rw [minByDuration_cons_none hrest]; simp
    | some t => rw [minByDuration_cons_some hrest]; simp

lemma minByDuration_mem : ∀ {l : List Split} {s : Split},
    minByDuration l = some s → s ∈ l := by
  intro l
  induction l with
  | nil => intro s h; cases h
  | cons a rest ih =>
    intro s h
    cases hrest : minByDuration rest with
    | none =>
      rw [minByDuration_cons_none hrest] at h
      obtain rfl : a = s := Option.some.inj h
      exact List.mem_cons_self _ _
    | some t =>
      rw [minByDuration_cons_some hrest] at h
      obtain rfl : (if t.duration_ms < a.duration_ms then t else a) = s := Option.some.inj h
      by_cases hlt : t.duration_ms < a.duration_ms
      · rw [if_pos hlt]; exact List.mem_cons_of_mem a (ih hrest)
      · rw [if_neg hlt]; exact List.mem_cons_self _ _

lemma minByDuration_le : ∀ {l : List Split} {s : Split}, minByDuration l = some s →
    ∀ t ∈ l, s.duration_ms ≤ t.duration_ms := by
  intro l
  induction l with
  | nil => intro s h; cases h
  | cons a rest ih =>
    intro s h t ht
    cases hrest : minByDuration rest with
    | none =>
      rw [minByDuration_cons_none hrest] at h
      obtain rfl : a = s := Option.some.inj h
      rcases List.mem_cons.mp ht with rfl | ht2
      · exact le_refl _
      · rw [minByDuration_eq_none.mp hrest] at ht2; cases ht2
    | some m =>
      rw [minByDuration_cons_some hrest] at h
      obtain rfl : (if m.duration_ms < a.duration_ms then m else a) = s := Option.some.inj h
      by_cases hlt : m.duration_ms < a.duration_ms
      · rw [if_pos hlt]
        rcases List.mem_cons.mp ht with rfl | ht2
        · exact le_of_lt hlt
        · exact ih hrest t ht2
      · rw [if_neg hlt]
        rcases List.mem_cons.mp ht with rfl | ht2
        · exact le_refl _
        · exact le_trans (not_lt.mp hlt) (ih hrest t ht2)

lemma minByDuration_earliest : ∀ {l : List Split},
    l.Pairwise (fun a b => a.created_at < b.created_at) →
    ∀ {s : Split}, minByDuration l = some s →
    ∀ t ∈ l, t.duration_ms = s.duration_ms → s.created_at ≤ t.created_at := by
  intro l
  induction l with
  | nil => intro _ s h; cases h
  | cons a rest ih =>
    intro hpw s h t ht hdur
    rw [List.pairwise_cons] at hpw
    obtain ⟨ha, hrest0⟩ := hpw
    cases hrest : minByDuration rest with
    | none =>
      rw [minByDuration_cons_none hrest] at h
      obtain rfl : a = s := Option.some.inj h
      rcases List.mem_cons.mp ht with rfl | ht2
      · exact le_refl _
      · rw [minByDuration_eq_none.mp hrest] at ht2; cases ht2
    | some m =>
      rw [minByDuration_cons_some hrest] at h
      by_cases hlt : m.duration_ms < a.duration_ms
      · rw [if_pos hlt] at h
        obtain rfl : m = s := Option.some.inj h
        rcases List.mem_cons.mp ht with rfl | ht2
        · exact absurd hdur (by omega)
        · exact ih hrest0 hrest t ht2 hdur
      · rw [if_neg hlt] at h
        obtain rfl : a = s := Option.some.inj h
        rcases List.mem_cons.mp ht with rfl | ht2
        · exact le_refl _
        · exact le_of_lt (ha t ht2)

lemma maxByDuration_cons_none {a : Split} {rest : List Split}
    (h : maxByDuration rest = none) : maxByDuration (a :: rest) = some a := by
  simp only [maxByDuration, h]

lemma maxByDuration_cons_some {a : Split} {rest : List Split} {t : Split}
    (h : maxByDuration rest = some t) :
    maxByDuration (a :: rest) = some (if a.duration_ms < t.duration_ms then t else a) := by
  simp only [maxByDuration, h]

lemma maxByDuration_eq_none : ∀ {l : List Split}, maxByDuration l = none ↔ l = [] := by
  intro l
  cases l with
  | nil => simp [maxByDuration]
  | cons a rest =>
    cases hrest : maxByDuration rest with
    | none => rw [maxByDuration_cons_none hrest]; simp
    | some t => rw [maxByDuration_cons_some hrest]; simp

lemma maxByDuration_mem : ∀ {l : List Split} {s : Split},
    maxByDuration l = some s → s ∈ l := by
  intro l
  induction l with
  | nil => intro s h; cases h
  | cons a rest ih =>
    intro s h
    cases hrest : maxByDuration rest with
    | none =>
      rw [maxByDuration_cons_none hrest] at h
      obtain rfl : a = s := Option.some.inj h
      exact List.mem_cons_self _ _
    | some t =>
      rw [maxByDuration_cons_some hrest] at h
      obtain rfl : (if a.duration_ms < t.duration_ms then t else a) = s := Option.some.inj h
      by_cases hlt : a.duration_ms < t.duration_ms
      · rw [if_pos hlt]; exact List.mem_cons_of_mem a (ih hrest)
      · rw [if_neg hlt]; exact List.mem_cons_self _ _

lemma maxByDuration_ge : ∀ {l : List Split} {s : Split}, maxByDuration l = some s →
    ∀ t ∈ l, t.duration_ms ≤ s.duration_ms := by
  intro l
  induction l with
  | nil => intro s h; cases h
  | cons a rest ih =>
    intro s h t ht
    cases hrest : maxByDuration rest with
    | none =>
      rw [maxByDuration_cons_none hrest] at h
      obtain rfl : a = s := Option.some.inj h
      rcases List.mem_cons.mp ht with rfl | ht2
      · exact le_refl _
      · rw [maxByDuration_eq_none.mp hrest] at ht2; cases ht2
    | some m =>
      rw [maxByDuration_cons_some hrest] at h
      obtain rfl : (if a.duration_ms < m.duration_ms then m else a) = s := Option.some.inj h
      by_cases hlt : a.duration_ms < m.duration_ms
      · rw [if_pos hlt]
        rcases List.mem_cons.mp ht with rfl | ht2
        · exact le_of_lt hlt
        · exact ih hrest t ht2
      · rw [if_neg hlt]
        rcases List.mem_cons.mp ht with rfl | ht2
        · exact le_refl _
        · exact le_trans (ih hrest t ht2) (not_lt.mp hlt)

lemma maxByDuration_earliest : ∀ {l : List Split},
    l.Pairwise (fun a b => a.created_at < b.created_at) →
    ∀ {s : Split}, maxByDuration l = some s →
    ∀ t ∈ l, t.duration_ms = s.duration_ms → s.created_at ≤ t.created_at := by
  intro l
  induction l with
  | nil => intro _ s h; cases h
  | cons a rest ih =>
    intro hpw s h t ht hdur
    rw [List.pairwise_cons] at hpw
    obtain ⟨ha, hrest0⟩ := hpw
    cases hrest : maxByDuration rest with
    | none =>
      rw [maxByDuration_cons_none hrest] at h
      obtain rfl : a = s := Option.some.inj h
      rcases List.mem_cons.mp ht with rfl | ht2
      · exact le_refl _
      · rw [maxByDuration_eq_none.mp hrest] at ht2; cases ht2
    | some m =>
      rw [maxByDuration_cons_some hrest] at h
      by_cases hlt : a.duration_ms < m.duration_ms
      · rw [if_pos hlt] at h
        obtain rfl : m = s := Option.some.inj h
        rcases List.mem_cons.mp ht with rfl | ht2
        · exact absurd hdur (by omega)
        · exact ih hrest0 hrest t ht2 hdur
      · rw [if_neg hlt] at h
        obtain rfl : a = s := Option.some.inj h
        rcases List.mem_cons.mp ht with rfl | ht2
        · exact le_refl _
        · exact le_of_lt (ha t ht2)

lemma catKey_of_filter {c : Bool × Bool × Option Bool} (hc : c ∈ categories) {s : Split}
    (h : categoryFilter c s = true) : catKey s = c := by
  have h6 : c = (true, true, none) ∨ c = (false, true, none) ∨
      c = (true, false, some true) ∨ c = (true, false, some false) ∨
      c = (false, false, some true) ∨ c = (false, false, some false) := by
    simpa [categories] using hc
  rcases h6 with rfl | rfl | rfl | rfl | rfl | rfl
  · simp only [categoryFilter, Bool.and_eq_true, beq_iff_eq, if_true] at h
    simp [catKey, h.1, h.2]
  · simp only [categoryFilter, Bool.and_eq_true, beq_iff_eq, if_true] at h
    simp [catKey, h.1, h.2]
  · simp [categoryFilter, Bool.and_eq_true, beq_iff_eq] at h
    simp [catKey, h.1.1, h.1.2, sqlNullEq_some h.2]
  · simp [categoryFilter, Bool.and_eq_true, beq_iff_eq] at h
    simp [catKey, h.1.1, h.1.2, sqlNullEq_some h.2]
  · simp [categoryFilter, Bool.and_eq_true, beq_iff_eq] at h
    simp [catKey, h.1.1, h.1.2, sqlNullEq_some h.2]
  · simp [categoryFilter, Bool.and_eq_true, beq_iff_eq] at h
    simp [catKey, h.1.1, h.1.2, sqlNullEq_some h.2]

lemma filterMap_map_sublist {α β : Type} (f : α → Option β) (g : β → α) :
    ∀ l : List α, (∀ a ∈ l, ∀ b, f a = some b → g b = a) →
      List.Sublist ((l.filterMap f).map g) l := by
  intro l
  induction l with
  | nil => intro _; simp
  | cons a rest ih =>
    intro hl
    cases hfa : f a with
    | none =>
      rw [List.filterMap_cons_none hfa]
      exact List.Sublist.cons a
        (ih (fun x hx b hb => hl x (List.mem_cons_of_mem a hx) b hb))
    | some b =>
      rw [List.filterMap_cons_some hfa, List.map_cons,
        hl a (List.mem_cons_self a rest) b hfa]
      exact List.Sublist.cons₂ a
        (ih (fun x hx b2 hb => hl x (List.mem_cons_of_mem a hx) b2 hb))

end BoardLemmas

section BoardSpecs

lemma get_world_records_spec (db : DB) (hwf : WF db) :
    List.Sublist ((get_world_records db).map catKey) categories
    ∧ (∀ s ∈ get_world_records db, s ∈ db.rows ∧ categoryFilter (catKey s) s = true ∧
        ∀ t ∈ db.rows, categoryFilter (catKey s) t = true →
          s.duration_ms ≤ t.duration_ms ∧
            (t.duration_ms = s.duration_ms → s.created_at ≤ t.created_at))
    ∧ (∀ c ∈ categories, ∀ t ∈ db.rows, categoryFilter c t = true →
        ∃ s ∈ get_world_records db, catKey s = c) := by
  have hW : ∀ c ∈ categories, ∀ s : Split,
      minByDuration (db.rows.filter (categoryFilter c)) = some s → catKey s = c := by
    intro c hc s hmin
    exact catKey_of_filter hc (List.of_mem_filter (minByDuration_mem hmin))
  refine ⟨?_, ?_, ?_⟩
  · exact filterMap_map_sublist _ catKey categories hW
  · intro s hs
    obtain ⟨c, hc, hmin⟩ := List.mem_filterMap.mp hs
    have hkey : catKey s = c := hW c hc s hmin
    have hsf : s ∈ db.rows.filter (categoryFilter c) := minByDuration_mem hmin
    refine ⟨List.mem_of_mem_filter hsf, ?_, ?_⟩
    · rw [hkey]
      exact List.of_mem_filter hsf
    · intro t ht hcatt
      rw [hkey] at hcatt
      have htf : t ∈ db.rows.filter (categoryFilter c) := List.mem_filter.mpr ⟨ht, hcatt⟩
      refine ⟨minByDuration_le hmin t htf, fun hdur => ?_⟩
      exact minByDuration_earliest
        (List.Pairwise.sublist (List.filter_sublist _) hwf.1) hmin t htf hdur
  · intro c hc t ht hcat
    have htf : t ∈ db.rows.filter (categoryFilter c) := List.mem_filter.mpr ⟨ht, hcat⟩
    cases hmin : minByDuration (db.rows.filter (categoryFilter c)) with
    | none =>
      rw [minByDuration_eq_none.mp hmin] at htf
      cases htf
    | some s =>
      exact ⟨s, List.mem_filterMap.mpr ⟨c, hc, hmin⟩, hW c hc s hmin⟩

lemma get_slowest_records_spec (db : DB) (hwf : WF db) :
    List.Sublist ((get_slowest_records db).map catKey) categories
    ∧ (∀ s ∈ get_slowest_records db, s ∈ db.rows ∧ categoryFilter (catKey s) s = true ∧
        ∀ t ∈ db.rows, categoryFilter (catKey s) t = true →
          t.duration_ms ≤ s.duration_ms ∧
            (t.duration_ms = s.duration_ms → s.created_at ≤ t.created_at))
    ∧ (∀ c ∈ categories, ∀ t ∈ db.rows, categoryFilter c t = true →
        ∃ s ∈ get_slowest_records db, catKey s = c) := by
  have hW : ∀ c ∈ categories, ∀ s : Split,
      maxByDuration (db.rows.filter (categoryFilter c)) = some s → catKey s = c := by
    intro c hc s hmax
    exact catKey_of_filter hc (List.of_mem_filter (maxByDuration_mem hmax))
  refine ⟨?_, ?_, ?_⟩
  · exact filterMap_map_sublist _ catKey categories hW
  · intro s hs
    obtain ⟨c, hc, hmax⟩ := List.mem_filterMap.mp hs
    have hkey : catKey s = c := hW c hc s hmax
    have hsf : s ∈ db.rows.filter (categoryFilter c) := maxByDuration_mem hmax
    refine ⟨List.mem_of_mem_filter hsf, ?_, ?_⟩
    · rw [hkey]
      exact List.of_mem_filter hsf
    · intro t ht hcatt
      rw [hkey] at hcatt
      have htf : t ∈ db.rows.filter (categoryFilter c) := List.mem_filter.mpr ⟨ht, hcatt⟩
      refine ⟨maxByDuration_ge hmax t htf, fun hdur => ?_⟩
      exact maxByDuration_earliest
        (List.Pairwise.sublist (List.filter_sublist _) hwf.1) hmax t htf hdur
  · intro c hc t ht hcat
    have htf : t ∈ db.rows.filter (categoryFilter c) := List.mem_filter.mpr ⟨ht, hcat⟩
    cases hmax : maxByDuration (db.rows.filter (categoryFilter c)) with
    | none =>
      rw [maxByDuration_eq_none.mp hmax] at htf
      cases htf
    | some s =>
      exact ⟨s, List.mem_filterMap.mpr ⟨c, hc, hmax⟩, hW c hc s hmax⟩

end BoardSpecs

/-- C3: `get_world_records` yields, per category in the fixed display order
down-elevator, up-elevator, down-stairs-encumbered, down-stairs-unencumbered,
up-stairs-encumbered, up-stairs-unencumbered, the minimum-duration split
(ties to the earliest-created), omitting empty categories;
`get_slowest_records` is symmetric with maximum duration; each therefore
returns at most 6 splits, never two of the same category, and in category
order. -/
theorem records_boards_per_category (db : DB) (hwf : WF db) :
    (List.Sublist ((get_world_records db).map catKey) categories
     ∧ (get_world_records db).length ≤ 6
     ∧ ((get_world_records db).map catKey).Nodup
     ∧ (∀ s ∈ get_world_records db, s ∈ db.rows ∧ categoryFilter (catKey s) s = true ∧
          ∀ t ∈ db.rows, categoryFilter (catKey s) t = true →
            s.duration_ms ≤ t.duration_ms ∧
              (t.duration_ms = s.duration_ms → s.created_at ≤ t.created_at))
     ∧ (∀ c ∈ categories, ∀ t ∈ db.rows, categoryFilter c t = true →
          ∃ s ∈ get_world_records db, catKey s = c))
    ∧ (List.Sublist ((get_slowest_records db).map catKey) categories
       ∧ (get_slowest_records db).length ≤ 6
       ∧ ((get_slowest_records db).map catKey).Nodup
       ∧ (∀ s ∈ get_slowest_records db, s ∈ db.rows ∧ categoryFilter (catKey s) s = true ∧
            ∀ t ∈ db.rows, categoryFilter (catKey s) t = true →
              t.duration_ms ≤ s.duration_ms ∧
                (t.duration_ms = s.duration_ms → s.created_at ≤ t.created_at))
       ∧ (∀ c ∈ categories, ∀ t ∈ db.rows, categoryFilter c t = true →
            ∃ s ∈ get_slowest_records db, catKey s = c)) := by
  obtain ⟨hsubW, hminW, hcomplW⟩ := get_world_records_spec db hwf
  obtain ⟨hsubS, hmaxS, hcomplS⟩ := get_slowest_records_spec db hwf
  refine ⟨⟨hsubW, ?_, ?_, hminW, hcomplW⟩, ⟨hsubS, ?_, ?_, hmaxS, hcomplS⟩⟩
  · have := hsubW.length_le
    simpa [categories] using this
  · exact List.Nodup.sublist hsubW (by decide)
  · have := hsubS.length_le
    simpa [categories] using this
  · exact List.Nodup.sublist hsubS (by decide)

/-- C3 witness: on the concrete two-row tied store the boards are within
bounds and complete for the down-stairs-unencumbered category. -/
theorem records_boards_per_category_witness :
    (get_world_records dbTie).length ≤ 6 ∧
    (get_slowest_records dbTie).length ≤ 6 ∧
    (∃ s ∈ get_world_records dbTie, catKey s = (true, false, some false)) :=
  ⟨(records_boards_per_category dbTie (by decide)).1.2.1,
   (records_boards_per_category dbTie (by decide)).2.2.1,
   (records_boards_per_category dbTie (by decide)).1.2.2.2.2
     (true, false, some false) (by decide) tieFirst (by decide) (by decide)⟩

/-- C10: every core store operation preserves the persisted splits: a
successful insert appends exactly one fresh row (never previously present),
a failed insert and every read operation leave the store untouched, prior
rows are never updated or deleted, and well-formedness is preserved. -/
theorem store_ops_preserve_rows (db : DB) (op : StoreOp) (hwf : WF db) :
    (∃ tail, (runOp db op).2.rows = db.rows ++ tail)
    ∧ (∀ data, op = StoreOp.insertOp data →
        ((insert_split db data).1 = Except.ok () →
          (runOp db op).2.rows = db.rows ++ [mkSplit db data] ∧ mkSplit db data ∉ db.rows)
        ∧ ((insert_split db data).1 ≠ Except.ok () → (runOp db op).2 = db))
    ∧ ((∀ data, op ≠ StoreOp.insertOp data) → (runOp db op).2 = db)
    ∧ WF (runOp db op).2 := by
  cases op with
  | insertOp data =>
    by_cases hdup : is_duplicate_entry db data = true
    · have hrun : insert_split db data = (Except.error AppError.DuplicateEntry, db) := by
        unfold insert_split
        rw [if_pos hdup]
      refine ⟨⟨[], by simp [runOp, hrun]⟩, ?_, ?_, ?_⟩
      · intro d hd
        injection hd with hd2
        subst hd2
        constructor
        · intro hok
          rw [hrun] at hok
          exact absurd hok (by simp)
        · intro _
          simp [runOp, hrun]
      · intro h
        exact absurd rfl (h data)
      · have : (runOp db (StoreOp.insertOp data)).2 = db := by simp [runOp, hrun]
        rw [this]
        exact hwf
    · have hrun : insert_split db data =
          (Except.ok (), { rows := db.rows ++ [mkSplit db data], clock := db.clock + 1 }) := by
        unfold insert_split
        rw [if_neg hdup]
      have hfresh : mkSplit db data ∉ db.rows := by
        intro hmem
        have hlt := hwf.2 _ hmem
        simp only [mkSplit] at hlt
        omega
      refine ⟨⟨[mkSplit db data], by simp [runOp, hrun]⟩, ?_, ?_, ?_⟩
      · intro d hd
        injection hd with hd2
        subst hd2
        constructor
        · intro _
          exact ⟨by simp [runOp, hrun], hfresh⟩
        · intro hne
          exact absurd (by rw [hrun]) hne
      · intro h
        exact absurd rfl (h data)
      · have hdb2 : (runOp db (StoreOp.insertOp data)).2 =
            { rows := db.rows ++ [mkSplit db data], clock := db.clock + 1 } := by
          simp [runOp, hrun]
        rw [hdb2]
        constructor
        · apply List.pairwise_append.mpr
          refine ⟨hwf.1, by simp, ?_⟩
          intro a ha b hb
          rw [List.mem_singleton.mp hb]
          have := hwf.2 a ha
          simp only [mkSplit]
          omega
        · intro s2 hs2
          show s2.created_at < db.clock + 1
          rcases List.mem_append.mp hs2 with hs3 | hs3
          · have := hwf.2 s2 hs3
            omega
          · rw [List.mem_singleton.mp hs3]
            simp only [mkSplit]
            omega
  | allOp =>
    refine ⟨⟨[], by simp [runOp]⟩, ?_, fun _ => rfl, hwf⟩
    intro d hd
    cases hd
  | recentOp =>
    refine ⟨⟨[], by simp [runOp]⟩, ?_, fun _ => rfl, hwf⟩
    intro d hd
    cases hd
  | recordCheckOp s =>
    refine ⟨⟨[], by simp [runOp]⟩, ?_, fun _ => rfl, hwf⟩
    intro d hd
    cases hd
  | bestOp =>
    refine ⟨⟨[], by simp [runOp]⟩, ?_, fun _ => rfl, hwf⟩
    intro d hd
    cases hd
  | worstOp =>
    refine ⟨⟨[], by simp [runOp]⟩, ?_, fun _ => rfl, hwf⟩
    intro d hd
    cases hd

/-- C10 witness: a successful insert into the one-row store appends exactly
the new row. -/
theorem store_ops_preserve_rows_witness :
    (runOp dupDB (StoreOp.insertOp { dupData with duration_ms := 2000 })).2.rows =
      dupDB.rows ++ [mkSplit dupDB { dupData with duration_ms := 2000 }] :=
  (((store_ops_preserve_rows dupDB
      (StoreOp.insertOp { dupData with duration_ms := 2000 }) (by decide)).2.1
    { dupData with duration_ms := 2000 } rfl).1 (by decide)).1

end Splits
